import Mathlib

/-!
Verification development for the DOCKERI web client's asynchronous
state-synchronization core: the conversation store (localStorage and
IndexedDB backends), the legacy-format migration, the upload-status
pollers, the streaming chat consumer, and the session controller of the
React `App` component.  Every definition below is a shallow embedding of
the corresponding TypeScript/JavaScript source; theorems settle the
frozen claims about the specification.
-/

namespace Dockeri

/-! ## Data model (src/client/src/types/index.ts, src/unnamed/part_002) -/

/-- Message author role. -/
inductive Role
  | user
  | model
deriving DecidableEq, Repr

/-- Icon markers attachable to a message part (part_002). -/
inductive IconKind
  | success
  | error
  | info
  | warning
deriving DecidableEq, Repr

/-- One part of a message: text plus an optional icon. -/
structure MessagePart where
  text : String
  icon : Option IconKind := none
deriving DecidableEq, Repr

/-- Status of a background upload-processing task. -/
inductive UploadState
  | uploaded
  | processing
  | done
  | failed
deriving DecidableEq, Repr

/-- The status record returned by `GET /upload/status/{task_id}`. -/
structure UploadStatusInfo where
  status : UploadState
  message : Option String := none
  progress : Option Nat := none
deriving DecidableEq, Repr

/-- A chat message. -/
structure Message where
  role : Role
  parts : List MessagePart
  uploadStatus : Option UploadStatusInfo := none
deriving DecidableEq, Repr

/-- A persisted conversation. -/
structure Conversation where
  id : String
  title : String
  messages : List Message
  createdAt : String
deriving DecidableEq, Repr

/-! ## Decimal strings

The source derives conversation ids via `Date.now().toString()`.  We model
JavaScript's decimal rendering of a non-negative integer with a
fuel-structured recursion so that it evaluates inside the kernel. -/

/-- Decimal digit character for `d ≤ 9`. -/
def digitChar (d : Nat) : Char :=
  match d with
  | 0 => '0' | 1 => '1' | 2 => '2' | 3 => '3' | 4 => '4'
  | 5 => '5' | 6 => '6' | 7 => '7' | 8 => '8' | _ => '9'

/-- Most-significant-first decimal digits of `n`; `fuel` bounds recursion depth. -/
def natDigitsGo : Nat → Nat → List Char
  | 0, _ => []
  | fuel + 1, n =>
    if n < 10 then [digitChar n]
    else natDigitsGo fuel (n / 10) ++ [digitChar (n % 10)]

/-- Decimal digit list of `n` (most significant first). -/
def natDigits (n : Nat) : List Char := natDigitsGo (n + 1) n

/-- Model of JavaScript `Number.prototype.toString` on a non-negative integer. -/
def natToString (n : Nat) : String := String.mk (natDigits n)

/-! ## Lexicographic string comparison

IndexedDB orders string keys by code units; JavaScript `<` on strings is the
same lexicographic order.  We embed it as a structural boolean comparison on
the character lists underlying Lean strings. -/

/-- Lexicographic strict order on character lists. -/
def charListLtB : List Char → List Char → Bool
  | [], [] => false
  | [], _ :: _ => true
  | _ :: _, [] => false
  | a :: as, b :: bs => if a < b then true else if b < a then false else charListLtB as bs

/-- Lexicographic strict order on strings (code-point order). -/
def strLtB (s t : String) : Bool := charListLtB s.data t.data

/-- Lexicographic non-strict order on strings. -/
def strLeB (s t : String) : Bool := ! strLtB t s

/-! ## localStorage-backed ConversationStore (src/client/src/utils/localStorage.ts) -/

/-- What may sit under the current-format key `dockeri_conversations_v1`:
a JSON array of conversations, some other well-formed JSON value, or a
string on which `JSON.parse` throws. -/
inductive StoredCurrent
  | arr (convs : List Conversation)
  | nonArray
  | malformed
deriving DecidableEq, Repr

/-- The two localStorage keys the store uses: the current-format record and
the legacy single-conversation record `dockeri_chat_history_v1`. -/
structure LocalStore where
  current : Option StoredCurrent
  legacy : Option (List Message)
deriving DecidableEq, Repr

/-- saveConversations (localStorage.ts:6-12): `localStorage.setItem` of the
serialized list under the current key.  `ok = false` models `setItem`
throwing; the surrounding catch logs and swallows, so the function always
returns and a failed write leaves the store unchanged. -/
def saveConversations (store : LocalStore) (conversations : List Conversation) (ok : Bool) :
    LocalStore :=
  if ok then { store with current := some (StoredCurrent.arr conversations) } else store

/-- Title chosen for the migrated legacy conversation (localStorage.ts:27-30):
the first user message's first part text when truthy, otherwise the
generated fallback built from the locale rendering of the current time.
`localeString` stands for `new Date(...).toLocaleString()`. -/
def legacyTitle (localeString : Nat → String) (msgs : List Message) (now : Nat) : String :=
  let fallback := "대화 " ++ localeString now
  match msgs.find? (fun m => m.role == Role.user) with
  | some m =>
    match m.parts with
    | p :: _ => if p.text = "" then fallback else p.text
    | [] => fallback
  | none => fallback

/-- The one-element conversation minted by legacy migration
(localStorage.ts:26-31): id and createdAt are both `Date.now().toString()`. -/
def migratedConversation (localeString : Nat → String) (msgs : List Message) (now : Nat) :
    Conversation :=
  { id := natToString now
    title := legacyTitle localeString msgs now
    messages := msgs
    createdAt := natToString now }

/-- loadConversations (localStorage.ts:14-40).  Returns the loaded list and
the store as left behind.  If the current key parses to an array it is
returned as stored; a parse exception is caught and yields `[]` with the
store untouched; otherwise, if the legacy key is present, its messages are
migrated into a one-element list, persisted under the current key, and the
legacy key is removed. -/
def loadConversations (localeString : Nat → String) (store : LocalStore) (now : Nat) :
    List Conversation × LocalStore :=
  match store.current with
  | some (StoredCurrent.arr data) => (data, store)
  | some StoredCurrent.malformed => ([], store)
  | _ =>
    match store.legacy with
    | some msgs =>
      let conversations := [migratedConversation localeString msgs now]
      let store1 := saveConversations store conversations true
      let store2 := { store1 with legacy := none }
      (conversations, store2)
    | none => ([], store)

/-! ## IndexedDB-backed store (src/client/src/utils/indexedDBStorage.ts) -/

/-- State visible to the IndexedDB module: the localStorage keys (including
the `dockeri_indexeddb_migration_done` flag) and the Dexie table rows. -/
structure IDBState where
  ls : LocalStore
  migrationDone : Bool
  db : List Conversation
deriving DecidableEq, Repr

/-- loadConversationsFromLocalStorage (indexedDBStorage.ts:68-91): the pure
read used by migration; unlike localStorage.ts it neither persists the
migrated list nor removes the legacy key. -/
def loadConversationsFromLocalStorage (localeString : Nat → String) (ls : LocalStore)
    (now : Nat) : List Conversation :=
  match ls.current with
  | some (StoredCurrent.arr data) => data
  | some StoredCurrent.malformed => []
  | _ =>
    match ls.legacy with
    | some msgs => [migratedConversation localeString msgs now]
    | none => []

/-- migrateFromLocalStorage (indexedDBStorage.ts:34-63): skipped once the
done-flag is set; otherwise bulk-adds any localStorage conversations into
the table and sets the flag. -/
def migrateFromLocalStorage (localeString : Nat → String) (st : IDBState) (now : Nat) :
    IDBState :=
  if st.migrationDone then st
  else
    let existing := loadConversationsFromLocalStorage localeString st.ls now
    let st1 := if existing.isEmpty then st else { st with db := st.db ++ existing }
    { st1 with migrationDone := true }

/-- saveConversations (indexedDBStorage.ts:96-108): migrate, `clear()` the
table, then `bulkAdd` the new list.  `clearOk`/`addOk` model the two
IndexedDB operations succeeding or throwing.  The catch logs and
**rethrows**, so the second component is the propagated error message, and
a failure between the clear and the add leaves the table empty. -/
def saveConversationsIDB (localeString : Nat → String) (st : IDBState)
    (conversations : List Conversation) (now : Nat) (clearOk addOk : Bool) :
    IDBState × Option String :=
  let st1 := migrateFromLocalStorage localeString st now
  if clearOk then
    let st2 := { st1 with db := [] }
    if addOk then ({ st2 with db := conversations }, none)
    else (st2, some "bulkAdd failed")
  else (st1, some "clear failed")

/-- loadConversations (indexedDBStorage.ts:113-129): migrate, then return
the table rows ordered by the `createdAt` index ascending and reversed,
i.e. most recent first. -/
def loadConversationsIDB (localeString : Nat → String) (st : IDBState) (now : Nat) :
    List Conversation × IDBState :=
  let st1 := migrateFromLocalStorage localeString st now
  ((st1.db.mergeSort (fun a b => strLeB a.createdAt b.createdAt)).reverse, st1)

/-- A list is ordered by `createdAt` descending (most recent first). -/
def sortedByCreatedAtDesc (l : List Conversation) : Prop :=
  l.Pairwise (fun a b => strLeB b.createdAt a.createdAt = true)

/-! ## Upload-status pollers -/

/-- The three observable outcomes a single status request can have. -/
inductive PollResponse
  | ok (info : UploadStatusInfo)
  | notFound
  | netError
deriving DecidableEq, Repr

/-- How a poll session ends.  `fuelOut` marks exhaustion of the finite
response script while the loop would keep polling. -/
inductive PollOutcome
  | returned (info : UploadStatusInfo)
  | timedOut
  | netFailed
  | fuelOut
deriving DecidableEq, Repr

/-- The distinct `onUpdate` call sites of the pollers. -/
inductive CallSite
  | received
  | timeoutSynth
  | notFoundSynth
  | netFailSynth
deriving DecidableEq, Repr

/-- Result of running a poller against a response script: the outcome, the
chronological list of `onUpdate` invocations tagged with their call site,
and the value of `Date.now()` when the loop ended. -/
structure PollResult where
  outcome : PollOutcome
  trace : List (CallSite × UploadStatusInfo)
  endTime : Nat
deriving DecidableEq, Repr

/-- The 20-minute poll timeout, in milliseconds. -/
def maxTimeout : Nat := 1000 * 60 * 20

/-- The synthesized not-found record of the TypeScript poller
(axiosClient.ts:138-141). -/
def notFoundInfo : UploadStatusInfo :=
  { status := UploadState.failed, message := some "작업을 찾을 수 없습니다", progress := some 0 }

/-- The synthesized timeout record (axiosClient.ts:125-129, part_007:328):
progress is the last known progress, with JavaScript `|| 0` defaulting. -/
def timeoutInfo (progress : Nat) : UploadStatusInfo :=
  { status := UploadState.failed, message := some "타임아웃", progress := some progress }

/-- The synthesized network-failure record of the legacy poller (part_007:338). -/
def netFailInfo : UploadStatusInfo :=
  { status := UploadState.failed, message := some "네트워크 오류로 폴링 중단", progress := some 0 }

/-- pollUploadStatus (axiosClient.ts:103-149).  The script pairs each
response with the duration of its network round trip; `t` is the current
clock and `interval` the current backoff interval.  A non-404 error is
rethrown at once (the catch only handles 404); the timeout error thrown
inside the try is caught, found to carry no 404 response, and rethrown. -/
def pollUploadStatus : List (Nat × PollResponse) → Nat → Nat → Nat → PollResult
  | [], _, t, _ => { outcome := PollOutcome.fuelOut, trace := [], endTime := t }
  | (d, r) :: rest, start, t, interval =>
    let t1 := t + d
    match r with
    | PollResponse.ok info =>
      if info.status = UploadState.done ∨ info.status = UploadState.failed then
        { outcome := PollOutcome.returned info
          trace := [(CallSite.received, info)], endTime := t1 }
      else if start + maxTimeout < t1 then
        { outcome := PollOutcome.timedOut
          trace := [(CallSite.received, info),
                    (CallSite.timeoutSynth, timeoutInfo (info.progress.getD 0))]
          endTime := t1 }
      else
        let res := pollUploadStatus rest start (t1 + interval) (min (interval * 2) 5000)
        { outcome := res.outcome
          trace := (CallSite.received, info) :: res.trace, endTime := res.endTime }
    | PollResponse.notFound =>
      { outcome := PollOutcome.returned notFoundInfo
        trace := [(CallSite.notFoundSynth, notFoundInfo)], endTime := t1 }
    | PollResponse.netError =>
      { outcome := PollOutcome.netFailed, trace := [], endTime := t1 }

/-- pollUploadStatus of the legacy page (part_007:307-345).  It keeps a
consecutive-failure counter: the catch increments it and fails once it
reaches 5, otherwise sleeps and retries with the backoff still doubling.  A
successful response resets the counter before `onUpdate`; the timeout error
thrown inside the try is caught by the poller's own catch, so after a
timeout delivery the loop sleeps and keeps polling with the counter at 1. -/
def pollUploadStatusLegacy : List (Nat × PollResponse) → Nat → Nat → Nat → Nat → PollResult
  | [], _, t, _, _ => { outcome := PollOutcome.fuelOut, trace := [], endTime := t }
  | (d, r) :: rest, start, t, interval, failures =>
    let t1 := t + d
    match r with
    | PollResponse.ok info =>
      if info.status = UploadState.done ∨ info.status = UploadState.failed then
        { outcome := PollOutcome.returned info
          trace := [(CallSite.received, info)], endTime := t1 }
      else if start + maxTimeout < t1 then
        let res := pollUploadStatusLegacy rest start (t1 + min interval 5000)
          (min (interval * 2) 5000) 1
        { outcome := res.outcome
          trace := (CallSite.received, info) ::
            (CallSite.timeoutSynth, timeoutInfo (info.progress.getD 0)) :: res.trace
          endTime := res.endTime }
      else
        let res := pollUploadStatusLegacy rest start (t1 + interval) (min (interval * 2) 5000) 0
        { outcome := res.outcome
          trace := (CallSite.received, info) :: res.trace, endTime := res.endTime }
    | PollResponse.notFound =>
      { outcome := PollOutcome.returned { status := UploadState.failed }
        trace := [(CallSite.notFoundSynth, notFoundInfo)], endTime := t1 }
    | PollResponse.netError =>
      if 5 ≤ failures + 1 then
        { outcome := PollOutcome.netFailed
          trace := [(CallSite.netFailSynth, netFailInfo)], endTime := t1 }
      else
        let res := pollUploadStatusLegacy rest start (t1 + min interval 5000)
          (min (interval * 2) 5000) (failures + 1)
        { outcome := res.outcome, trace := res.trace, endTime := res.endTime }

/-! ## Streaming chat consumer (src/client/src/api/axiosClient.ts:45-77)

The consumer reads byte chunks and decodes them with a stateful
`TextDecoder('utf-8')` in streaming mode: complete UTF-8 sequences are
appended to the accumulated text, an incomplete trailing sequence is kept
pending for the next chunk. -/

/-- UTF-8 encoding of one character (1-4 bytes). -/
def utf8EncodeChar (c : Char) : List Nat :=
  let v := c.toNat
  if v < 0x80 then [v]
  else if v < 0x800 then [0xC0 + v / 0x40, 0x80 + v % 0x40]
  else if v < 0x10000 then
    [0xE0 + v / 0x1000, 0x80 + v / 0x40 % 0x40, 0x80 + v % 0x40]
  else
    [0xF0 + v / 0x40000, 0x80 + v / 0x1000 % 0x40, 0x80 + v / 0x40 % 0x40, 0x80 + v % 0x40]

/-- UTF-8 byte encoding of a string. -/
def utf8Encode (s : String) : List Nat := (s.data.map utf8EncodeChar).flatten

/-- Length of the UTF-8 sequence announced by its first byte. -/
def seqLen (b : Nat) : Nat :=
  if b < 0xC0 then 1
  else if b < 0xE0 then 2
  else if b < 0xF0 then 3
  else 4

/-- The replacement character a `TextDecoder` substitutes for invalid input. -/
def replacementChar : Char := Char.ofNat 0xFFFD

/-- Decode one complete UTF-8 sequence. -/
def decodeSeq (l : List Nat) : Char :=
  match l with
  | [b] => Char.ofNat b
  | [b1, b2] => Char.ofNat ((b1 - 0xC0) * 0x40 + (b2 - 0x80))
  | [b1, b2, b3] => Char.ofNat ((b1 - 0xE0) * 0x1000 + (b2 - 0x80) * 0x40 + (b3 - 0x80))
  | [b1, b2, b3, b4] =>
    Char.ofNat ((b1 - 0xF0) * 0x40000 + (b2 - 0x80) * 0x1000 + (b3 - 0x80) * 0x40 + (b4 - 0x80))
  | _ => replacementChar

/-- Greedy decoding of a byte list: complete leading sequences become
characters, an incomplete trailing sequence is returned undecoded.  `fuel`
bounds the recursion depth structurally. -/
def decodeAllGo : Nat → List Nat → List Char × List Nat
  | 0, l => ([], l)
  | _ + 1, [] => ([], [])
  | fuel + 1, b :: rest =>
    let n := seqLen b
    if (b :: rest).length < n then ([], b :: rest)
    else
      let r := decodeAllGo fuel ((b :: rest).drop n)
      (decodeSeq ((b :: rest).take n) :: r.1, r.2)

/-- Decode the complete leading sequences of a byte list; the second
component is the pending incomplete tail. -/
def decodeAll (l : List Nat) : List Char × List Nat := decodeAllGo l.length l

/-- Internal state of the stream loop: the decoder's pending bytes and the
accumulated text. -/
structure StreamState where
  pending : List Nat
  accumulated : String
deriving DecidableEq, Repr

/-- One iteration of the read loop (axiosClient.ts:67-74):
`decoder.decode(value, stream: true)` followed by
`accumulatedText += chunk`. -/
def streamStep (st : StreamState) (chunk : List Nat) : StreamState :=
  let r := decodeAll (st.pending ++ chunk)
  { pending := r.2, accumulated := st.accumulated ++ String.mk r.1 }

/-- The read loop of streamChatMessage: after each chunk the callback
receives the accumulated text; the final accumulated text is returned when
the transport reports completion.  The first component collects the
`onChunk` arguments in order. -/
def streamLoop : StreamState → List (List Nat) → List String × String
  | st, [] => ([], st.accumulated)
  | st, chunk :: rest =>
    let st1 := streamStep st chunk
    let r := streamLoop st1 rest
    (st1.accumulated :: r.1, r.2)

/-- streamChatMessage (axiosClient.ts:45-77) run against a list of
delivered byte chunks. -/
def streamChatMessage (chunks : List (List Nat)) : List String × String :=
  streamLoop { pending := [], accumulated := "" } chunks

/-! ## Session controller (App.tsx, the React client under src/client) -/

/-- JavaScript `String.prototype.trim`, structurally on the character list. -/
def isWhitespaceChar (c : Char) : Bool :=
  c = ' ' || c = '\t' || c = '\n' || c = '\r'

/-- Trim leading and trailing whitespace. -/
def trimString (s : String) : String :=
  String.mk (((s.data.dropWhile isWhitespaceChar).reverse.dropWhile isWhitespaceChar).reverse)

/-- The user message appended by handleSendMessage (App.tsx:623). -/
def userMessage (text : String) : Message :=
  { role := Role.user, parts := [{ text := text }] }

/-- The transient empty-text loading placeholder (App.tsx:628). -/
def loadingMessage : Message :=
  { role := Role.model, parts := [{ text := "" }] }

/-- The model message holding the (accumulated or final) streamed text. -/
def modelMessage (text : String) : Message :=
  { role := Role.model, parts := [{ text := text }] }

/-- The error-flagged model message of the send flow's catch (App.tsx:679-682). -/
def sendErrorMessage (emsg : String) : Message :=
  { role := Role.model
    parts := [{ text := "오류가 발생했습니다: " ++ emsg, icon := some IconKind.error }] }

/-- The conversation minted by a Send with no active conversation
(App.tsx:634-642, part_007:228-234): id and createdAt are both
`Date.now().toString()`, the title is the raw user text, and the messages
are the context before the loading placeholder. -/
def newConversation (text : String) (msgs : List Message) (now : Nat) : Conversation :=
  { id := natToString now, title := text, messages := msgs, createdAt := natToString now }

/-- The React component state plus the persisted localStorage record. -/
structure AppState where
  conversations : List Conversation
  currentConversationId : Option String
  chatContext : List Message
  promptValue : String
  store : LocalStore
deriving DecidableEq, Repr

/-- The variables a running Send flow captured lexically: the context with
the user message, the conversation id it targets, and its snapshot of the
conversation list. -/
structure SendFlow where
  newContext : List Message
  convId : String
  updatedConversations : List Conversation
deriving DecidableEq, Repr

/-- handleNewChat (App.tsx:544-548). -/
def handleNewChat (s : AppState) : AppState :=
  { s with currentConversationId := none, chatContext := [], promptValue := "" }

/-- handleDeleteConversation (App.tsx:558-570): drop the record from the
list and the persisted store; reset the session if it was active. -/
def handleDeleteConversation (s : AppState) (id : String) : AppState :=
  if (s.conversations.find? (fun c => c.id == id)).isNone then s
  else
    let newConversations := s.conversations.filter (fun c => c.id != id)
    let s1 := { s with conversations := newConversations
                       store := saveConversations s.store newConversations true }
    if s1.currentConversationId = some id then
      { s1 with currentConversationId := none, chatContext := [] }
    else s1

/-- The synchronous part of handleSendMessage (App.tsx:617-655) up to the
`await streamChatMessage`: append the user message and the loading
placeholder to the ephemeral buffer, mint or update the conversation
record, persist, and capture the flow's variables.  Returns `none` when
the trimmed prompt is empty. -/
def sendStart (s : AppState) (now : Nat) : AppState × Option SendFlow :=
  let text := trimString s.promptValue
  if text = "" then (s, none)
  else
    let s := { s with promptValue := "" }
    let newContext := s.chatContext ++ [userMessage text]
    let s := { s with chatContext := newContext }
    let s := { s with chatContext := newContext ++ [loadingMessage] }
    match s.currentConversationId with
    | none =>
      let conv := newConversation text newContext now
      let updated := conv :: s.conversations
      ({ s with conversations := updated
                currentConversationId := some conv.id
                store := saveConversations s.store updated true },
       some { newContext := newContext, convId := conv.id, updatedConversations := updated })
    | some convId =>
      let updated := s.conversations.map
        (fun c => if c.id == convId then { c with messages := newContext } else c)
      ({ s with conversations := updated
                store := saveConversations s.store updated true },
       some { newContext := newContext, convId := convId, updatedConversations := updated })

/-- The per-chunk callback of the Send flow (App.tsx:660-665): replace the
placeholder with the accumulated text; only the ephemeral buffer changes. -/
def sendProgress (s : AppState) (fl : SendFlow) (acc : String) : AppState :=
  { s with chatContext := fl.newContext ++ [modelMessage acc] }

/-- The completion of the Send flow (App.tsx:667-676): rebuild the final
context, map the **captured** conversation snapshot, and persist it. -/
def sendComplete (s : AppState) (fl : SendFlow) (acc : String) : AppState :=
  let finalContext := fl.newContext ++ [modelMessage acc]
  let finalConvs := fl.updatedConversations.map
    (fun c => if c.id == fl.convId then { c with messages := finalContext } else c)
  { s with chatContext := finalContext
           conversations := finalConvs
           store := saveConversations s.store finalConvs true }

/-- The catch of the Send flow (App.tsx:677-691): like completion but with
the error-flagged message. -/
def sendError (s : AppState) (fl : SendFlow) (emsg : String) : AppState :=
  let errorContext := fl.newContext ++ [sendErrorMessage emsg]
  let errorConvs := fl.updatedConversations.map
    (fun c => if c.id == fl.convId then { c with messages := errorContext } else c)
  { s with chatContext := errorContext
           conversations := errorConvs
           store := saveConversations s.store errorConvs true }

/-- Observer: the persisted messages of the conversation with the given id,
as found in the stored current-format record. -/
def storedMessages (store : LocalStore) (id : String) : Option (List Message) :=
  match store.current with
  | some (StoredCurrent.arr cs) => (cs.find? (fun c => c.id == id)).map (fun c => c.messages)
  | _ => none

/-! ## Properties of the lexicographic comparison -/

theorem charListLtB_irrefl : ∀ l : List Char, charListLtB l l = false
  | [] => rfl
  | a :: as => by simp [charListLtB, charListLtB_irrefl as]

theorem charListLtB_asymm : ∀ a b : List Char,
    charListLtB a b = true → charListLtB b a = false := by
  intro a
  induction a with
  | nil => intro b h; cases b <;> simp_all [charListLtB]
  | cons x xs ih =>
    intro b h
    cases b with
    | nil => simp [charListLtB] at h
    | cons y ys =>
      simp only [charListLtB] at h ⊢
      by_cases hxy : x < y
      · simp [hxy, lt_asymm hxy]
      · by_cases hyx : y < x
        · simp [hxy, hyx] at h
        · simp only [hxy, hyx, if_false] at h ⊢
          exact ih ys h

theorem charListLtB_trans : ∀ a b c : List Char,
    charListLtB a b = true → charListLtB b c = true → charListLtB a c = true := by
  intro a
  induction a with
  | nil => intro b c h1 h2; cases b <;> cases c <;> simp_all [charListLtB]
  | cons x xs ih =>
    intro b c h1 h2
    cases b with
    | nil => simp [charListLtB] at h1
    | cons y ys =>
      cases c with
      | nil => simp [charListLtB] at h2
      | cons z zs =>
        simp only [charListLtB] at h1 h2 ⊢
        by_cases hxy : x < y
        · by_cases hyz : y < z
          · simp [lt_trans hxy hyz]
          · by_cases hzy : z < y
            · simp [hyz, hzy] at h2
            · have : y = z := le_antisymm (not_lt.mp hzy) (not_lt.mp hyz)
              subst this; simp [hxy]
        · by_cases hyx : y < x
          · simp [hxy, hyx] at h1
          · have hxy' : x = y := le_antisymm (not_lt.mp hyx) (not_lt.mp hxy)
            subst hxy'
            simp only [hxy, if_false, lt_irrefl] at h1 ⊢
            by_cases hyz : x < z
            · simp [hyz]
            · by_cases hzy : z < x
              · simp [hyz, hzy] at h2
              · simp only [hyz, hzy, if_false] at h2 ⊢
                exact ih ys zs h1 h2

theorem charListLtB_connex : ∀ a b : List Char,
    charListLtB a b = false → charListLtB b a = false → a = b := by
  intro a
  induction a with
  | nil => intro b h1 _; cases b <;> simp_all [charListLtB]
  | cons x xs ih =>
    intro b h1 h2
    cases b with
    | nil => simp [charListLtB] at h2
    | cons y ys =>
      simp only [charListLtB] at h1 h2
      by_cases hxy : x < y
      · simp [hxy] at h1
      · by_cases hyx : y < x
        · simp [hyx, hxy] at h2
        · have : x = y := le_antisymm (not_lt.mp hyx) (not_lt.mp hxy)
          subst this
          simp only [lt_irrefl, if_false] at h1 h2
          rw [ih ys h1 h2]

theorem strLeB_trans (a b c : String) (h1 : strLeB a b = true) (h2 : strLeB b c = true) :
    strLeB a c = true := by
  simp only [strLeB, strLtB, Bool.not_eq_true'] at h1 h2 ⊢
  by_contra h
  rw [Bool.not_eq_false] at h
  by_cases hbc : charListLtB b.data c.data = true
  · have := charListLtB_trans _ _ _ hbc h
    simp [this] at h1
  · have hb : b.data = c.data :=
      charListLtB_connex _ _ (Bool.not_eq_true _ ▸ hbc) h2
    rw [← hb] at h
    simp [h] at h1

theorem strLeB_total (a b : String) : (strLeB a b || strLeB b a) = true := by
  simp only [strLeB, strLtB, Bool.not_eq_true']
  by_cases h : charListLtB b.data a.data = true
  · simp [charListLtB_asymm _ _ h]
  · simp [Bool.not_eq_true] at h
    simp [h]

/-! ## Claims C4, C5, C6, C9: the conversation stores -/

/-- C4: with only a legacy record present, the first `load()` migrates (one
conversation, id and createdAt from the current time, title from the first
user message or the generated fallback), persists under the current key and
removes the legacy key; the second `load()` returns the identical
one-element list with the store unchanged; and whenever a current-format
array exists, the result and the store are the same whatever the legacy
key holds — the legacy key is never consulted again. -/
theorem claim_C4_migration_idempotent (f : Nat → String) (msgs : List Message)
    (now1 now2 : Nat) :
    (loadConversations f ⟨none, some msgs⟩ now1).1 = [migratedConversation f msgs now1] ∧
    (loadConversations f ⟨none, some msgs⟩ now1).2
      = ⟨some (StoredCurrent.arr [migratedConversation f msgs now1]), none⟩ ∧
    loadConversations f (loadConversations f ⟨none, some msgs⟩ now1).2 now2
      = ((loadConversations f ⟨none, some msgs⟩ now1).1,
         (loadConversations f ⟨none, some msgs⟩ now1).2) ∧
    (∀ (cs : List Conversation) (leg : Option (List Message)) (now : Nat),
      loadConversations f ⟨some (StoredCurrent.arr cs), leg⟩ now
        = (cs, ⟨some (StoredCurrent.arr cs), leg⟩)) := by
  refine ⟨rfl, rfl, rfl, fun cs leg now => rfl⟩

/-- C5 counterexample: the localStorage `loadConversations` returns the
stored collection as written and does not reorder it — a store written in
`createdAt` ascending order is returned unsorted. -/
theorem claim_C5_counterexample_not_sorted :
    (loadConversations (fun _ => "")
        ⟨some (StoredCurrent.arr [⟨"1", "a", [], "1"⟩, ⟨"2", "b", [], "2"⟩]), none⟩ 0).1
      = [⟨"1", "a", [], "1"⟩, ⟨"2", "b", [], "2"⟩] ∧
    ¬ sortedByCreatedAtDesc
      (loadConversations (fun _ => "")
        ⟨some (StoredCurrent.arr [⟨"1", "a", [], "1"⟩, ⟨"2", "b", [], "2"⟩]), none⟩ 0).1 := by
  refine ⟨rfl, ?_⟩
  simp only [sortedByCreatedAtDesc, loadConversations]
  decide

/-- C5 amended: the localStorage-backed `load()` returns the stored list in
its stored order (no reordering on read); only the IndexedDB-backed
`load()` returns the conversations ordered by `createdAt` descending. -/
theorem claim_C5_load_order :
    (∀ (f : Nat → String) (cs : List Conversation) (leg : Option (List Message)) (now : Nat),
      (loadConversations f ⟨some (StoredCurrent.arr cs), leg⟩ now).1 = cs) ∧
    (∀ (f : Nat → String) (st : IDBState) (now : Nat),
      sortedByCreatedAtDesc (loadConversationsIDB f st now).1) := by
  constructor
  · intro f cs leg now; rfl
  · intro f st now
    simp only [loadConversationsIDB, sortedByCreatedAtDesc]
    rw [List.pairwise_reverse]
    exact List.sorted_mergeSort
      (fun a b c => strLeB_trans a.createdAt b.createdAt c.createdAt)
      (fun a b => strLeB_total a.createdAt b.createdAt) _

/-- C6 counterexample: saving a list whose `createdAt` values are ascending
and loading it back returns exactly that list, which is not ordered by
`createdAt` descending — the round-trip does not normalize the ordering. -/
theorem claim_C6_counterexample_roundtrip_order :
    (loadConversations (fun _ => "")
        (saveConversations ⟨none, none⟩ [⟨"1", "a", [], "1"⟩, ⟨"2", "b", [], "2"⟩] true) 0).1
      = [⟨"1", "a", [], "1"⟩, ⟨"2", "b", [], "2"⟩] ∧
    ¬ sortedByCreatedAtDesc
      (loadConversations (fun _ => "")
        (saveConversations ⟨none, none⟩ [⟨"1", "a", [], "1"⟩, ⟨"2", "b", [], "2"⟩] true) 0).1 := by
  refine ⟨rfl, ?_⟩
  simp only [sortedByCreatedAtDesc, loadConversations, saveConversations]
  decide

/-- C6 amended: for any list of conversations C, saving C and loading
returns exactly C — the same records with identical fields in the order
they were written (hence set-equal to C); nothing is dropped, duplicated,
or altered. -/
theorem claim_C6_roundtrip_exact (f : Nat → String) (st : LocalStore)
    (cs : List Conversation) (now : Nat) :
    (loadConversations f (saveConversations st cs true) now).1 = cs ∧
    ((loadConversations f (saveConversations st cs true) now).1).Perm cs := by
  exact ⟨rfl, List.Perm.refl _⟩

/-- C9 counterexample: an IndexedDB save whose `bulkAdd` fails after a
successful `clear` leaves the table empty — the prior persisted state is
not retained — and the raw error is rethrown to the caller rather than
swallowed or wrapped. -/
theorem claim_C9_counterexample_partial_write :
    (saveConversationsIDB (fun _ => "") ⟨⟨none, none⟩, true, [⟨"1", "t", [], "1"⟩]⟩
        [⟨"1", "t", [], "1"⟩] 0 true false).1.db = [] ∧
    (saveConversationsIDB (fun _ => "") ⟨⟨none, none⟩, true, [⟨"1", "t", [], "1"⟩]⟩
        [⟨"1", "t", [], "1"⟩] 0 true false).1.db ≠ [⟨"1", "t", [], "1"⟩] ∧
    (saveConversationsIDB (fun _ => "") ⟨⟨none, none⟩, true, [⟨"1", "t", [], "1"⟩]⟩
        [⟨"1", "t", [], "1"⟩] 0 true false).2 = some "bulkAdd failed" := by
  refine ⟨rfl, ?_, rfl⟩
  decide

/-- C9 amended: a failing localStorage save is caught, logged and swallowed
— the caller sees no error and the prior store is unchanged — and a
malformed current record makes `load()` return `[]` with the store
untouched; the IndexedDB save instead rethrows the raw error, and a failure
after the clear leaves the table empty while a failing clear leaves the
migrated table intact. -/
theorem claim_C9_storage_failure :
    (∀ (st : LocalStore) (cs : List Conversation), saveConversations st cs false = st) ∧
    (∀ (st : LocalStore) (cs : List Conversation),
      saveConversations st cs true = { st with current := some (StoredCurrent.arr cs) }) ∧
    (∀ (f : Nat → String) (leg : Option (List Message)) (now : Nat),
      loadConversations f ⟨some StoredCurrent.malformed, leg⟩ now
        = ([], ⟨some StoredCurrent.malformed, leg⟩)) ∧
    (∀ (f : Nat → String) (st : IDBState) (cs : List Conversation) (now : Nat),
      (saveConversationsIDB f st cs now true false).2.isSome = true ∧
      (saveConversationsIDB f st cs now true false).1.db = []) ∧
    (∀ (f : Nat → String) (st : IDBState) (cs : List Conversation) (now : Nat),
      (saveConversationsIDB f st cs now false true).2.isSome = true ∧
      (saveConversationsIDB f st cs now false true).1.db
        = (migrateFromLocalStorage f st now).db) := by
  refine ⟨fun st cs => rfl, fun st cs => rfl, fun f leg now => rfl, fun f st cs now => ⟨rfl, rfl⟩,
    fun f st cs now => ⟨rfl, rfl⟩⟩

/-! ## Decimal strings versus numeric order -/

theorem natDigitsGo_congr : ∀ (f1 f2 n : Nat), n < f1 → n < f2 →
    natDigitsGo f1 n = natDigitsGo f2 n := by
  intro f1
  induction f1 with
  | zero => intro f2 n h1; omega
  | succ k ih =>
    intro f2 n h1 h2
    cases f2 with
    | zero => omega
    | succ m =>
      simp only [natDigitsGo]
      by_cases hn : n < 10
      · simp [hn]
      · have hdiv : n / 10 < n := Nat.div_lt_self (by omega) (by omega)
        simp only [hn, if_false]
        rw [ih m (n / 10) (by omega) (by omega)]

theorem natDigits_lt10 (n : Nat) (h : n < 10) : natDigits n = [digitChar n] := by
  simp [natDigits, natDigitsGo, h]

theorem natDigits_ge10 (n : Nat) (h : 10 ≤ n) :
    natDigits n = natDigits (n / 10) ++ [digitChar (n % 10)] := by
  have hdiv : n / 10 < n := Nat.div_lt_self (by omega) (by omega)
  show (if n < 10 then [digitChar n] else natDigitsGo n (n / 10) ++ [digitChar (n % 10)]) = _
  rw [if_neg (by omega), natDigitsGo_congr n (n / 10 + 1) (n / 10) (by omega) (by omega)]
  rfl

theorem natDigits_length_pos (n : Nat) : 0 < (natDigits n).length := by
  by_cases h : n < 10
  · rw [natDigits_lt10 n h]; simp
  · rw [natDigits_ge10 n (by omega)]; simp

theorem natDigits_length_ge2 (n : Nat) (h : 10 ≤ n) : 2 ≤ (natDigits n).length := by
  rw [natDigits_ge10 n h]
  have := natDigits_length_pos (n / 10)
  simp
  omega

theorem digitChar_lt_iff (a b : Nat) (ha : a ≤ 9) (hb : b ≤ 9) :
    (digitChar a < digitChar b) ↔ a < b := by
  interval_cases a <;> interval_cases b <;> decide

theorem digitChar_inj (a b : Nat) (ha : a ≤ 9) (hb : b ≤ 9)
    (h : digitChar a = digitChar b) : a = b := by
  interval_cases a <;> interval_cases b <;> first | rfl | exact absurd h (by decide)

theorem charListLtB_append_singleton : ∀ (a b : List Char) (x y : Char),
    a.length = b.length →
    (charListLtB (a ++ [x]) (b ++ [y]) = true ↔
      charListLtB a b = true ∨ (a = b ∧ x < y)) := by
  intro a
  induction a with
  | nil =>
    intro b x y hlen
    cases b with
    | nil =>
      simp only [List.nil_append, charListLtB]
      by_cases hxy : x < y
      · simp [hxy]
      · by_cases hyx : y < x <;> simp [hxy, hyx]
    | cons z zs => simp at hlen
  | cons u us ih =>
    intro b x y hlen
    cases b with
    | nil => simp at hlen
    | cons v vs =>
      simp only [List.length_cons, Nat.add_right_cancel_iff] at hlen
      simp only [List.cons_append, charListLtB]
      by_cases huv : u < v
      · simp [huv]
      · by_cases hvu : v < u
        · constructor
          · intro h; simp [huv, hvu] at h
          · rintro (h | ⟨heq, _⟩)
            · simp [charListLtB, huv, hvu] at h
            · injection heq with h1 _
              exact absurd (h1 ▸ hvu) (lt_irrefl _)
        · have huv' : u = v := le_antisymm (not_lt.mp hvu) (not_lt.mp huv)
          subst huv'
          simp only [huv, hvu, if_false, lt_irrefl, List.cons.injEq, true_and]
          exact ih vs x y hlen

theorem natDigits_inj : ∀ m n : Nat, natDigits m = natDigits n → m = n := by
  intro m
  induction m using Nat.strong_induction_on with
  | _ m ih =>
    intro n h
    by_cases hm : m < 10
    · by_cases hn : n < 10
      · rw [natDigits_lt10 m hm, natDigits_lt10 n hn] at h
        simp only [List.cons.injEq, and_true] at h
        exact digitChar_inj m n (by omega) (by omega) h
      · exfalso
        have h2 := natDigits_length_ge2 n (by omega)
        rw [← h, natDigits_lt10 m hm] at h2
        simp at h2
    · by_cases hn : n < 10
      · exfalso
        have h2 := natDigits_length_ge2 m (by omega)
        rw [h, natDigits_lt10 n hn] at h2
        simp at h2
      · rw [natDigits_ge10 m (by omega), natDigits_ge10 n (by omega)] at h
        have hlast : digitChar (m % 10) = digitChar (n % 10) := by
          have := congrArg List.getLast? h
          simpa using this
        have hinit : natDigits (m / 10) = natDigits (n / 10) := by
          have := congrArg List.dropLast h
          simpa using this
        have hdiv : m / 10 < m := Nat.div_lt_self (by omega) (by omega)
        have h1 : m / 10 = n / 10 := ih (m / 10) hdiv (n / 10) hinit
        have h2 : m % 10 = n % 10 :=
          digitChar_inj (m % 10) (n % 10) (by omega) (by omega) hlast
        omega

theorem natDigits_ltB_iff : ∀ m n : Nat, (natDigits m).length = (natDigits n).length →
    (charListLtB (natDigits m) (natDigits n) = true ↔ m < n) := by
  intro m
  induction m using Nat.strong_induction_on with
  | _ m ih =>
    intro n hlen
    by_cases hm : m < 10
    · by_cases hn : n < 10
      · rw [natDigits_lt10 m hm, natDigits_lt10 n hn]
        simp only [charListLtB]
        constructor
        · intro h
          by_cases hd : digitChar m < digitChar n
          · exact (digitChar_lt_iff m n (by omega) (by omega)).mp hd
          · by_cases hd2 : digitChar n < digitChar m <;> simp [hd, hd2] at h
        · intro h
          simp [(digitChar_lt_iff m n (by omega) (by omega)).mpr h]
      · exfalso
        have h2 := natDigits_length_ge2 n (by omega)
        rw [← hlen, natDigits_lt10 m hm] at h2
        simp at h2
    · by_cases hn : n < 10
      · exfalso
        have h2 := natDigits_length_ge2 m (by omega)
        rw [hlen, natDigits_lt10 n hn] at h2
        simp at h2
      · rw [natDigits_ge10 m (by omega), natDigits_ge10 n (by omega)] at hlen ⊢
        simp only [List.length_append, List.length_cons, List.length_nil,
          Nat.add_right_cancel_iff] at hlen
        rw [charListLtB_append_singleton _ _ _ _ hlen]
        have hdiv : m / 10 < m := Nat.div_lt_self (by omega) (by omega)
        rw [ih (m / 10) hdiv (n / 10) hlen]
        rw [digitChar_lt_iff (m % 10) (n % 10) (by omega) (by omega)]
        constructor
        · rintro (h | ⟨heq, h⟩)
          · omega
          · have := natDigits_inj _ _ heq
            omega
        · intro h
          by_cases hq : m / 10 = n / 10
          · right; exact ⟨by rw [hq], by omega⟩
          · left; omega

/-! ## Claim C10: id and createdAt of program-created conversations -/

/-- C10 counterexample: for conversations minted by the Send flow at
creation times 999 and 1000, `createdAt` equals `id`, yet ordering by
`createdAt` descending disagrees with ordering by `id` as a number
descending: the string "999" sorts lexicographically above "1000" although
999 < 1000 — the claimed consequence fails when the decimal
representations have different lengths. -/
theorem claim_C10_counterexample_order_mismatch :
    (newConversation "a" [] 999).createdAt = (newConversation "a" [] 999).id ∧
    (newConversation "b" [] 1000).createdAt = (newConversation "b" [] 1000).id ∧
    strLtB (newConversation "b" [] 1000).createdAt (newConversation "a" [] 999).createdAt
      = true ∧
    (999 : Nat) < 1000 := by
  refine ⟨rfl, rfl, ?_, by omega⟩
  decide

/-- C10 amended: every conversation the program creates — minted by a Send
flow with no active conversation, or produced by legacy migration — has
`createdAt` string-equal to `id`, both the decimal string of the creation
time in milliseconds; and ordering by `createdAt` (lexicographically)
descending coincides with ordering by the id's numeric value descending
whenever the decimal representations have equal length (as holds for all
real millisecond timestamps between 2001 and 2286). -/
theorem claim_C10_created_id_eq_createdAt :
    (∀ (text : String) (msgs : List Message) (now : Nat),
      (newConversation text msgs now).createdAt = (newConversation text msgs now).id ∧
      (newConversation text msgs now).id = natToString now) ∧
    (∀ (f : Nat → String) (msgs : List Message) (now : Nat),
      (migratedConversation f msgs now).createdAt = (migratedConversation f msgs now).id ∧
      (migratedConversation f msgs now).id = natToString now) ∧
    (∀ m n : Nat, (natToString m).length = (natToString n).length →
      (strLtB (natToString m) (natToString n) = true ↔ m < n)) := by
  refine ⟨fun text msgs now => ⟨rfl, rfl⟩, fun f msgs now => ⟨rfl, rfl⟩, fun m n hlen => ?_⟩
  exact natDigits_ltB_iff m n hlen

/-- Witness for the amended C10 at concrete inputs 123 and 456. -/
theorem claim_C10_created_id_eq_createdAt_witness :
    (natToString 123).length = (natToString 456).length ∧
    (strLtB (natToString 123) (natToString 456) = true ↔ 123 < 456) :=
  ⟨by decide, claim_C10_created_id_eq_createdAt.2.2 123 456 (by decide)⟩

/-! ## Stream decoding: chunk-boundary safety -/

theorem seqLen_pos (b : Nat) : 1 ≤ seqLen b := by
  unfold seqLen
  split_ifs <;> omega

theorem stringMk_append (a b : List Char) :
    String.mk a ++ String.mk b = String.mk (a ++ b) := rfl

theorem decodeAllGo_congr : ∀ (f1 f2 : Nat) (l : List Nat), l.length ≤ f1 → l.length ≤ f2 →
    decodeAllGo f1 l = decodeAllGo f2 l := by
  intro f1
  induction f1 with
  | zero =>
    intro f2 l h1 h2
    have : l = [] := List.length_eq_zero.mp (by omega)
    subst this
    cases f2 <;> rfl
  | succ k ih =>
    intro f2 l h1 h2
    cases l with
    | nil => cases f2 <;> rfl
    | cons b rest =>
      cases f2 with
      | zero => simp at h2
      | succ m =>
        simp only [decodeAllGo, List.length_cons]
        by_cases hlen : rest.length + 1 < seqLen b
        · simp [hlen]
        · simp only [hlen, if_false]
          have hp := seqLen_pos b
          have hdrop : ((b :: rest).drop (seqLen b)).length ≤ k := by
            simp only [List.length_drop]
            simp only [List.length_cons] at h1 ⊢
            omega
          have hdrop2 : ((b :: rest).drop (seqLen b)).length ≤ m := by
            simp only [List.length_drop]
            simp only [List.length_cons] at h2 ⊢
            omega
          rw [ih m _ hdrop hdrop2]

theorem decodeAll_cons_complete (b : Nat) (rest : List Nat)
    (h : seqLen b ≤ (b :: rest).length) :
    decodeAll (b :: rest)
      = (decodeSeq ((b :: rest).take (seqLen b)) :: (decodeAll ((b :: rest).drop (seqLen b))).1,
         (decodeAll ((b :: rest).drop (seqLen b))).2) := by
  show decodeAllGo (b :: rest).length (b :: rest) = _
  rw [List.length_cons]
  show (if (b :: rest).length < seqLen b then (([] : List Char), b :: rest)
        else (decodeSeq ((b :: rest).take (seqLen b))
                :: (decodeAllGo rest.length ((b :: rest).drop (seqLen b))).1,
              (decodeAllGo rest.length ((b :: rest).drop (seqLen b))).2)) = _
  rw [if_neg (by omega)]
  have hp := seqLen_pos b
  have hd : ((b :: rest).drop (seqLen b)).length ≤ rest.length := by
    simp only [List.length_drop, List.length_cons]
    omega
  rw [decodeAllGo_congr rest.length ((b :: rest).drop (seqLen b)).length _ hd le_rfl]
  rfl

theorem decodeAll_cons_incomplete (b : Nat) (rest : List Nat)
    (h : (b :: rest).length < seqLen b) :
    decodeAll (b :: rest) = ([], b :: rest) := by
  show decodeAllGo (b :: rest).length (b :: rest) = _
  rw [List.length_cons]
  show (if (b :: rest).length < seqLen b then (([] : List Char), b :: rest)
        else (decodeSeq ((b :: rest).take (seqLen b))
                :: (decodeAllGo rest.length ((b :: rest).drop (seqLen b))).1,
              (decodeAllGo rest.length ((b :: rest).drop (seqLen b))).2)) = _
  rw [if_pos h]

theorem decodeAll_append_aux : ∀ n : Nat, ∀ a : List Nat, a.length = n → ∀ b : List Nat,
    decodeAll (a ++ b)
      = ((decodeAll a).1 ++ (decodeAll ((decodeAll a).2 ++ b)).1,
         (decodeAll ((decodeAll a).2 ++ b)).2) := by
  intro n
  induction n using Nat.strong_induction_on with
  | _ n ih =>
  intro a hn b
  cases a with
  | nil => simp [decodeAll, decodeAllGo]
  | cons x xs =>
    by_cases hc : seqLen x ≤ (x :: xs).length
    · rw [decodeAll_cons_complete x xs hc]
      have hxb : (x :: xs) ++ b = x :: (xs ++ b) := rfl
      have hc2 : seqLen x ≤ (x :: (xs ++ b)).length := by
        simp only [List.length_cons, List.length_append] at hc ⊢
        omega
      rw [hxb, decodeAll_cons_complete x (xs ++ b) hc2]
      have htake : (x :: (xs ++ b)).take (seqLen x) = (x :: xs).take (seqLen x) := by
        rw [← hxb, List.take_append_of_le_length hc]
      have hdropb : (x :: (xs ++ b)).drop (seqLen x) = (x :: xs).drop (seqLen x) ++ b := by
        rw [← hxb, List.drop_append_of_le_length hc]
      rw [htake, hdropb]
      have hp := seqLen_pos x
      have hlt : ((x :: xs).drop (seqLen x)).length < n := by
        subst hn
        simp only [List.length_drop, List.length_cons]
        omega
      rw [ih _ hlt _ rfl b]
      simp
    · push_neg at hc
      rw [decodeAll_cons_incomplete x xs hc]
      simp

theorem decodeAll_append (a b : List Nat) :
    decodeAll (a ++ b)
      = ((decodeAll a).1 ++ (decodeAll ((decodeAll a).2 ++ b)).1,
         (decodeAll ((decodeAll a).2 ++ b)).2) :=
  decodeAll_append_aux a.length a rfl b

theorem decodeAll_encodeChar_append (c : Char) (r : List Nat) :
    decodeAll (utf8EncodeChar c ++ r) = (c :: (decodeAll r).1, (decodeAll r).2) := by
  have hv : 0 ≤ c.toNat := Nat.zero_le _
  by_cases h1 : c.toNat < 0x80
  · have he : utf8EncodeChar c = [c.toNat] := by simp [utf8EncodeChar, h1]
    rw [he]
    have hs : seqLen c.toNat = 1 := by unfold seqLen; rw [if_pos (by omega)]
    have hc : seqLen c.toNat ≤ (c.toNat :: r).length := by simp [hs]
    rw [List.cons_append, decodeAll_cons_complete _ _ (by simpa using hc)]
    simp only [hs, List.take_succ_cons, List.take_zero, List.drop_succ_cons, List.drop_zero]
    rw [show decodeSeq [c.toNat] = Char.ofNat c.toNat from rfl, Char.ofNat_toNat]
    simp
  · by_cases h2 : c.toNat < 0x800
    · have he : utf8EncodeChar c = [0xC0 + c.toNat / 0x40, 0x80 + c.toNat % 0x40] := by
        simp [utf8EncodeChar, h1, h2]
      rw [he]
      have hs : seqLen (0xC0 + c.toNat / 0x40) = 2 := by
        unfold seqLen
        rw [if_neg (by omega), if_pos (by omega)]
      rw [List.cons_append, List.cons_append,
        decodeAll_cons_complete _ _ (by simp [hs])]
      simp only [hs, List.take_succ_cons, List.take_zero, List.drop_succ_cons, List.drop_zero]
      have hd : decodeSeq [0xC0 + c.toNat / 0x40, 0x80 + c.toNat % 0x40] = c := by
        show Char.ofNat ((0xC0 + c.toNat / 0x40 - 0xC0) * 0x40 + (0x80 + c.toNat % 0x40 - 0x80))
          = c
        rw [show (0xC0 + c.toNat / 0x40 - 0xC0) * 0x40 + (0x80 + c.toNat % 0x40 - 0x80)
            = c.toNat by omega, Char.ofNat_toNat]
      rw [hd]
      simp
    · by_cases h3 : c.toNat < 0x10000
      · have he : utf8EncodeChar c
            = [0xE0 + c.toNat / 0x1000, 0x80 + c.toNat / 0x40 % 0x40, 0x80 + c.toNat % 0x40] := by
          simp [utf8EncodeChar, h1, h2, h3]
        rw [he]
        have hs : seqLen (0xE0 + c.toNat / 0x1000) = 3 := by
          unfold seqLen
          rw [if_neg (by omega), if_neg (by omega), if_pos (by omega)]
        rw [List.cons_append, List.cons_append, List.cons_append,
          decodeAll_cons_complete _ _ (by simp [hs])]
        simp only [hs, List.take_succ_cons, List.take_zero, List.drop_succ_cons, List.drop_zero]
        have hd : decodeSeq [0xE0 + c.toNat / 0x1000, 0x80 + c.toNat / 0x40 % 0x40,
            0x80 + c.toNat % 0x40] = c := by
          show Char.ofNat ((0xE0 + c.toNat / 0x1000 - 0xE0) * 0x1000
            + (0x80 + c.toNat / 0x40 % 0x40 - 0x80) * 0x40 + (0x80 + c.toNat % 0x40 - 0x80)) = c
          rw [show (0xE0 + c.toNat / 0x1000 - 0xE0) * 0x1000
            + (0x80 + c.toNat / 0x40 % 0x40 - 0x80) * 0x40 + (0x80 + c.toNat % 0x40 - 0x80)
              = c.toNat by omega, Char.ofNat_toNat]
        rw [hd]
        simp
      · have he : utf8EncodeChar c
            = [0xF0 + c.toNat / 0x40000, 0x80 + c.toNat / 0x1000 % 0x40,
               0x80 + c.toNat / 0x40 % 0x40, 0x80 + c.toNat % 0x40] := by
          simp [utf8EncodeChar, h1, h2, h3]
        rw [he]
        have hs : seqLen (0xF0 + c.toNat / 0x40000) = 4 := by
          unfold seqLen
          rw [if_neg (by omega), if_neg (by omega), if_neg (by omega)]
        rw [List.cons_append, List.cons_append, List.cons_append, List.cons_append,
          decodeAll_cons_complete _ _ (by simp [hs])]
        simp only [hs, List.take_succ_cons, List.take_zero, List.drop_succ_cons, List.drop_zero]
        have hd : decodeSeq [0xF0 + c.toNat / 0x40000, 0x80 + c.toNat / 0x1000 % 0x40,
            0x80 + c.toNat / 0x40 % 0x40, 0x80 + c.toNat % 0x40] = c := by
          show Char.ofNat ((0xF0 + c.toNat / 0x40000 - 0xF0) * 0x40000
            + (0x80 + c.toNat / 0x1000 % 0x40 - 0x80) * 0x1000
            + (0x80 + c.toNat / 0x40 % 0x40 - 0x80) * 0x40 + (0x80 + c.toNat % 0x40 - 0x80)) = c
          rw [show (0xF0 + c.toNat / 0x40000 - 0xF0) * 0x40000
            + (0x80 + c.toNat / 0x1000 % 0x40 - 0x80) * 0x1000
            + (0x80 + c.toNat / 0x40 % 0x40 - 0x80) * 0x40 + (0x80 + c.toNat % 0x40 - 0x80)
              = c.toNat by omega, Char.ofNat_toNat]
        rw [hd]
        simp

theorem decodeAll_encode : ∀ s : List Char, decodeAll ((s.map utf8EncodeChar).flatten) = (s, []) := by
  intro s
  induction s with
  | nil => rfl
  | cons c cs ih =>
    rw [List.map_cons, List.flatten_cons, decodeAll_encodeChar_append, ih]

/-- The snapshot texts the claim expects: after each chunk, the decoded
complete part of all bytes delivered so far (`prior` bytes already
consumed before these chunks). -/
def snapshotTexts (prior : List Nat) : List (List Nat) → List String
  | [] => []
  | c :: rest => String.mk (decodeAll (prior ++ c)).1 :: snapshotTexts (prior ++ c) rest

theorem streamLoop_spec : ∀ (chunks : List (List Nat)) (B : List Nat),
    streamLoop { pending := (decodeAll B).2, accumulated := String.mk (decodeAll B).1 } chunks
      = (snapshotTexts B chunks, String.mk (decodeAll (B ++ chunks.flatten)).1) := by
  intro chunks
  induction chunks with
  | nil => intro B; simp [streamLoop, snapshotTexts]
  | cons c rest ih =>
    intro B
    have hstep : streamStep { pending := (decodeAll B).2, accumulated := String.mk (decodeAll B).1 } c
        = { pending := (decodeAll (B ++ c)).2, accumulated := String.mk (decodeAll (B ++ c)).1 } := by
      simp only [streamStep, decodeAll_append B c]
      rw [stringMk_append]
    simp only [streamLoop, hstep, ih (B ++ c), snapshotTexts]
    simp [List.append_assoc]

theorem snapshotTexts_getD : ∀ (chunks : List (List Nat)) (B : List Nat) (i : Nat),
    i < chunks.length →
    (snapshotTexts B chunks).getD i ""
      = String.mk (decodeAll (B ++ (chunks.take (i + 1)).flatten)).1 := by
  intro chunks
  induction chunks with
  | nil => intro B i h; simp at h
  | cons c rest ih =>
    intro B i h
    cases i with
    | zero => simp [snapshotTexts]
    | succ j =>
      simp only [snapshotTexts, List.getD_cons_succ]
      rw [ih (B ++ c) j (by simpa using h)]
      simp [List.append_assoc]

/-! ## Claim C7: chunk-boundary safety of the stream consumer -/

/-- C7: for every string and every split of its UTF-8 byte encoding into
successive chunks — including splits that cut a multi-byte character — the
stream consumer calls the callback once per chunk with the total
accumulated text decoded so far (never a delta), and the final returned
text equals the original string. -/
theorem claim_C7_stream_chunk_safety (s : String) (chunks : List (List Nat))
    (h : chunks.flatten = utf8Encode s) :
    (streamChatMessage chunks).2 = s ∧
    (streamChatMessage chunks).1.length = chunks.length ∧
    (∀ i, i < chunks.length →
      (streamChatMessage chunks).1.getD i ""
        = String.mk (decodeAll ((chunks.take (i + 1)).flatten)).1) := by
  have hrun : streamChatMessage chunks
      = (snapshotTexts [] chunks, String.mk (decodeAll chunks.flatten).1) := by
    have := streamLoop_spec chunks []
    simpa [streamChatMessage, decodeAll, decodeAllGo] using this
  have hlen : ∀ (B : List Nat) (cs : List (List Nat)), (snapshotTexts B cs).length = cs.length := by
    intro B cs
    induction cs generalizing B with
    | nil => rfl
    | cons c rest ih => simp [snapshotTexts, ih]
  refine ⟨?_, ?_, ?_⟩
  · rw [hrun, h]
    show String.mk (decodeAll ((s.data.map utf8EncodeChar).flatten)).1 = s
    rw [decodeAll_encode s.data]
  · rw [hrun]
    exact hlen [] chunks
  · intro i hi
    rw [hrun]
    have := snapshotTexts_getD chunks [] i hi
    simpa using this

/-- Witness for C7: the two-character Korean string whose first character's
three-byte encoding is cut after two bytes. -/
theorem claim_C7_stream_chunk_safety_witness :
    ([[236, 149], [136, 235, 133, 149]] : List (List Nat)).flatten = utf8Encode "안녕" ∧
    (streamChatMessage [[236, 149], [136, 235, 133, 149]]).2 = "안녕" :=
  ⟨by decide, (claim_C7_stream_chunk_safety "안녕" [[236, 149], [136, 235, 133, 149]]
    (by decide)).1⟩

/-! ## Poller properties -/

/-- Recognizer for trace entries produced by the timeout-synthesis call site. -/
def isTimeoutSynth (e : CallSite × UploadStatusInfo) : Bool :=
  e.1 == CallSite.timeoutSynth

theorem pollTS_spec : ∀ (script : List (Nat × PollResponse)) (start t interval : Nat),
    start ≤ t →
    (((pollUploadStatus script start t interval).trace.filter isTimeoutSynth).length
      = if (pollUploadStatus script start t interval).outcome = PollOutcome.timedOut
        then 1 else 0) ∧
    ((pollUploadStatus script start t interval).outcome = PollOutcome.timedOut →
      start + maxTimeout < (pollUploadStatus script start t interval).endTime ∧
      ∃ pre info, (pollUploadStatus script start t interval).trace
        = pre ++ [(CallSite.received, info),
                  (CallSite.timeoutSynth, timeoutInfo (info.progress.getD 0))]) := by
  intro script
  induction script with
  | nil =>
    intro start t interval h
    simp [pollUploadStatus]
  | cons e rest ih =>
    intro start t interval h
    obtain ⟨d, r⟩ := e
    cases r with
    | ok info =>
      by_cases hterm : info.status = UploadState.done ∨ info.status = UploadState.failed
      · have hred : pollUploadStatus ((d, PollResponse.ok info) :: rest) start t interval
            = { outcome := PollOutcome.returned info
                trace := [(CallSite.received, info)], endTime := t + d } := by
          simp [pollUploadStatus, hterm]
        rw [hred]
        exact ⟨rfl, fun hx => by simp at hx⟩
      · by_cases hlate : start + maxTimeout < t + d
        · have hred : pollUploadStatus ((d, PollResponse.ok info) :: rest) start t interval
              = { outcome := PollOutcome.timedOut
                  trace := [(CallSite.received, info),
                            (CallSite.timeoutSynth, timeoutInfo (info.progress.getD 0))]
                  endTime := t + d } := by
            simp [pollUploadStatus, hterm, hlate]
          rw [hred]
          exact ⟨rfl, fun _ => ⟨hlate, [], info, rfl⟩⟩
        · have h' : start ≤ t + d + interval := by omega
          obtain ⟨ihcount, ihtime⟩ := ih start (t + d + interval) (min (interval * 2) 5000) h'
          have hred : pollUploadStatus ((d, PollResponse.ok info) :: rest) start t interval
              = { outcome := (pollUploadStatus rest start (t + d + interval)
                    (min (interval * 2) 5000)).outcome
                  trace := (CallSite.received, info)
                    :: (pollUploadStatus rest start (t + d + interval)
                          (min (interval * 2) 5000)).trace
                  endTime := (pollUploadStatus rest start (t + d + interval)
                    (min (interval * 2) 5000)).endTime } := by
            simp [pollUploadStatus, hterm, hlate]
          rw [hred]
          constructor
          · have hfalse : isTimeoutSynth (CallSite.received, info) = false := rfl
            simpa [List.filter_cons, hfalse] using ihcount
          · intro hout
            obtain ⟨htime, pre, info2, htrace⟩ := ihtime hout
            exact ⟨htime, (CallSite.received, info) :: pre, info2, by simp [htrace]⟩
    | notFound =>
      have hred : pollUploadStatus ((d, PollResponse.notFound) :: rest) start t interval
          = { outcome := PollOutcome.returned notFoundInfo
              trace := [(CallSite.notFoundSynth, notFoundInfo)], endTime := t + d } := rfl
      rw [hred]
      exact ⟨rfl, fun hx => by simp at hx⟩
    | netError =>
      have hred : pollUploadStatus ((d, PollResponse.netError) :: rest) start t interval
          = { outcome := PollOutcome.netFailed, trace := [], endTime := t + d } := rfl
      rw [hred]
      exact ⟨rfl, fun hx => by simp at hx⟩

theorem pollTS_liveness : ∀ (script : List (Nat × PollResponse)) (start t interval : Nat),
    (∀ e ∈ script, ∃ d i, e = (d, PollResponse.ok i)
        ∧ ¬(i.status = UploadState.done ∨ i.status = UploadState.failed)) →
    (pollUploadStatus script start t interval).outcome = PollOutcome.timedOut ∨
    (pollUploadStatus script start t interval).outcome = PollOutcome.fuelOut := by
  intro script
  induction script with
  | nil => intro start t interval _; right; rfl
  | cons e rest ih =>
    intro start t interval hall
    obtain ⟨d, i, hei, hterm⟩ := hall e (List.mem_cons_self e rest)
    subst hei
    by_cases hlate : start + maxTimeout < t + d
    · left
      simp [pollUploadStatus, hterm, hlate]
    · have := ih start (t + d + interval) (min (interval * 2) 5000)
        (fun e he => hall e (List.mem_cons_of_mem _ he))
      simpa [pollUploadStatus, hterm, hlate] using this

/-! ## Claims C3 and C8: the pollers' retry and timeout policies -/

/-- C3 counterexample: the legacy poller fails on the 5th consecutive
transient failure, not the 6th — five consecutive network errors already
end the session with the network-failure outcome, while after only four it
is still retrying. -/
theorem claim_C3_counterexample_fifth_failure :
    (pollUploadStatusLegacy (List.replicate 5 (0, PollResponse.netError)) 0 0 2000 0).outcome
      = PollOutcome.netFailed ∧
    (pollUploadStatusLegacy (List.replicate 4 (0, PollResponse.netError)) 0 0 2000 0).outcome
      = PollOutcome.fuelOut := by
  exact ⟨by decide, by decide⟩

/-- C3 amended: in the legacy poller a transient network failure is retried
(with the backoff schedule still applying and the interval still doubling)
only while fewer than four consecutive failures have accumulated; on the
5th consecutive failure the poller delivers the network-failure status and
rethrows.  A successful in-time non-terminal poll resets the
consecutive-failure counter to zero.  The src/client poller does not retry
at all: its first non-404 error propagates immediately. -/
theorem claim_C3_retry_behavior :
    (∀ (d : Nat) (rest : List (Nat × PollResponse)) (start t interval f : Nat), f + 1 < 5 →
      pollUploadStatusLegacy ((d, PollResponse.netError) :: rest) start t interval f
        = pollUploadStatusLegacy rest start (t + d + min interval 5000)
            (min (interval * 2) 5000) (f + 1)) ∧
    (∀ (d : Nat) (rest : List (Nat × PollResponse)) (start t interval : Nat),
      (pollUploadStatusLegacy ((d, PollResponse.netError) :: rest) start t interval 4)
        = { outcome := PollOutcome.netFailed
            trace := [(CallSite.netFailSynth, netFailInfo)], endTime := t + d }) ∧
    (∀ (d : Nat) (info : UploadStatusInfo) (rest : List (Nat × PollResponse))
        (start t interval f : Nat),
      ¬(info.status = UploadState.done ∨ info.status = UploadState.failed) →
      ¬(start + maxTimeout < t + d) →
      pollUploadStatusLegacy ((d, PollResponse.ok info) :: rest) start t interval f
        = { outcome := (pollUploadStatusLegacy rest start (t + d + interval)
              (min (interval * 2) 5000) 0).outcome
            trace := (CallSite.received, info)
              :: (pollUploadStatusLegacy rest start (t + d + interval)
                    (min (interval * 2) 5000) 0).trace
            endTime := (pollUploadStatusLegacy rest start (t + d + interval)
              (min (interval * 2) 5000) 0).endTime }) ∧
    (∀ (d : Nat) (rest : List (Nat × PollResponse)) (start t interval : Nat),
      pollUploadStatus ((d, PollResponse.netError) :: rest) start t interval
        = { outcome := PollOutcome.netFailed, trace := [], endTime := t + d }) := by
  refine ⟨?_, ?_, ?_, ?_⟩
  · intro d rest start t interval f hf
    simp [pollUploadStatusLegacy, Nat.not_le.mpr hf]
  · intro d rest start t interval
    simp [pollUploadStatusLegacy]
  · intro d info rest start t interval f hterm hlate
    simp [pollUploadStatusLegacy, hterm, hlate]
  · intro d rest start t interval
    simp [pollUploadStatus]

/-- Witness for the amended C3: one sub-threshold failure retries with the
doubled interval and incremented counter. -/
theorem claim_C3_retry_behavior_witness :
    0 + 1 < 5 ∧
    pollUploadStatusLegacy [(0, PollResponse.netError)] 0 0 2000 0
      = pollUploadStatusLegacy [] 0 (0 + 0 + min 2000 5000) (min (2000 * 2) 5000) (0 + 1) :=
  ⟨by omega, claim_C3_retry_behavior.1 0 [] 0 0 2000 0 (by omega)⟩

/-- C8 counterexample: against a status endpoint that never returns a
terminal status, the legacy poller's timeout error is caught by its own
catch, so the synthesized timeout record is delivered to the callback more
than once and the poller is still polling (no failure) after the second
delivery — the claim's "exactly once, then fail" is violated. -/
theorem claim_C8_counterexample_legacy_repeat :
    2 ≤ ((pollUploadStatusLegacy
        (List.replicate 243 (0, PollResponse.ok
          { status := UploadState.processing, progress := some 42 })) 0 0 2000 0).trace.filter
            isTimeoutSynth).length ∧
    (pollUploadStatusLegacy
        (List.replicate 243 (0, PollResponse.ok
          { status := UploadState.processing, progress := some 42 })) 0 0 2000 0).outcome
      = PollOutcome.fuelOut := by
  exact ⟨by decide, by decide⟩

/-- C8 amended: the src/client poller synthesizes the timeout record
`{failed, 타임아웃, last known progress or 0}`, delivers it to the callback
exactly once — as the final delivery, right after the last received status,
whose progress it reuses — and fails; this happens only when the wall-clock
elapsed since poll start strictly exceeds 20 minutes, never earlier, and
with a never-terminal response script the poller can only time out or keep
polling.  The legacy poller instead catches its own timeout error and keeps
polling, re-delivering the timeout record. -/
theorem claim_C8_timeout_once_after_20min :
    (∀ (script : List (Nat × PollResponse)) (start t interval : Nat), start ≤ t →
      (((pollUploadStatus script start t interval).trace.filter isTimeoutSynth).length
        = if (pollUploadStatus script start t interval).outcome = PollOutcome.timedOut
          then 1 else 0) ∧
      ((pollUploadStatus script start t interval).outcome = PollOutcome.timedOut →
        start + maxTimeout < (pollUploadStatus script start t interval).endTime ∧
        ∃ pre info, (pollUploadStatus script start t interval).trace
          = pre ++ [(CallSite.received, info),
                    (CallSite.timeoutSynth, timeoutInfo (info.progress.getD 0))])) ∧
    (∀ (script : List (Nat × PollResponse)) (start t interval : Nat),
      (∀ e ∈ script, ∃ d i, e = (d, PollResponse.ok i)
          ∧ ¬(i.status = UploadState.done ∨ i.status = UploadState.failed)) →
      (pollUploadStatus script start t interval).outcome = PollOutcome.timedOut ∨
      (pollUploadStatus script start t interval).outcome = PollOutcome.fuelOut) :=
  ⟨pollTS_spec, pollTS_liveness⟩

/-- Witness for the amended C8: a 242-response never-terminal script drives
the src/client poller into the timeout outcome with exactly one synthesized
delivery, at clock 1201000 > 1200000. -/
theorem claim_C8_timeout_once_after_20min_witness :
    (0 : Nat) ≤ 0 ∧
    (((pollUploadStatus (List.replicate 242 (0, PollResponse.ok
          { status := UploadState.processing, progress := some 42 })) 0 0 2000).trace.filter
        isTimeoutSynth).length
      = if (pollUploadStatus (List.replicate 242 (0, PollResponse.ok
            { status := UploadState.processing, progress := some 42 })) 0 0 2000).outcome
            = PollOutcome.timedOut
        then 1 else 0) ∧
    (pollUploadStatus (List.replicate 242 (0, PollResponse.ok
        { status := UploadState.processing, progress := some 42 })) 0 0 2000).outcome
      = PollOutcome.timedOut :=
  ⟨Nat.le_refl 0,
   (claim_C8_timeout_once_after_20min.1
      (List.replicate 242 (0, PollResponse.ok
        { status := UploadState.processing, progress := some 42 })) 0 0 2000
      (Nat.le_refl 0)).1,
   by decide⟩

/-! ## Session-controller lemmas -/

theorem find?_map_update (cs : List Conversation) (cid : String) (X : List Message) :
    (cs.map (fun c => if c.id == cid then { c with messages := X } else c)).find?
        (fun c => c.id == cid)
      = (cs.find? (fun c => c.id == cid)).map
          (fun c => if c.id == cid then { c with messages := X } else c) := by
  rw [List.find?_map]
  have hp : ((fun c => c.id == cid) ∘
        fun c => if c.id == cid then { c with messages := X } else c)
      = (fun c : Conversation => c.id == cid) := by
    funext c
    by_cases hc : c.id == cid <;> simp [Function.comp, hc]
  rw [hp]

theorem find?_of_mem_id (cs : List Conversation) (cid : String)
    (hex : ∃ c ∈ cs, c.id = cid) :
    ∃ c₀, cs.find? (fun c => c.id == cid) = some c₀ ∧ c₀.id = cid := by
  obtain ⟨c, hc, hcid⟩ := hex
  have hsome : (cs.find? (fun c => c.id == cid)).isSome := by
    rw [List.find?_isSome]
    exact ⟨c, hc, by simp [hcid]⟩
  obtain ⟨c₀, hc₀⟩ := Option.isSome_iff_exists.mp hsome
  refine ⟨c₀, hc₀, ?_⟩
  have := List.find?_some hc₀
  simpa using this

/-! ## Claim C2: ephemeral buffer versus persisted messages -/

/-- C2 counterexample: at the persistence point that follows appending the
transient placeholder, the ephemeral buffer holds the placeholder but the
persisted messages of the just-created active conversation do not — the two
are not equal there. -/
theorem claim_C2_counterexample_placeholder_not_persisted :
    (sendStart ⟨[], none, [], "hi", ⟨some (StoredCurrent.arr []), none⟩⟩ 5).1.chatContext
      = [userMessage "hi", loadingMessage] ∧
    storedMessages (sendStart ⟨[], none, [], "hi", ⟨some (StoredCurrent.arr []), none⟩⟩ 5).1.store
        (natToString 5)
      = some [userMessage "hi"] ∧
    storedMessages (sendStart ⟨[], none, [], "hi", ⟨some (StoredCurrent.arr []), none⟩⟩ 5).1.store
        (natToString 5)
      ≠ some (sendStart ⟨[], none, [], "hi",
          ⟨some (StoredCurrent.arr []), none⟩⟩ 5).1.chatContext := by
  exact ⟨by decide, by decide, by decide⟩

/-- C2 amended: for an uninterrupted Send flow, at the pre-stream
persistence point the persisted messages of the active conversation equal
the ephemeral buffer with the trailing transient placeholder removed (the
buffer is exactly those messages followed by the placeholder); at the
completion and at the error persistence points, the ephemeral buffer is
equal to the persisted messages of the active conversation. -/
theorem claim_C2_persistence_points (s0 : AppState) (now : Nat) (acc emsg : String)
    (htext : ¬ trimString s0.promptValue = "")
    (hactive : ∀ i, s0.currentConversationId = some i →
      ∃ c ∈ s0.conversations, c.id = i) :
    ∀ fl, (sendStart s0 now).2 = some fl →
      storedMessages (sendStart s0 now).1.store fl.convId = some fl.newContext ∧
      (sendStart s0 now).1.chatContext = fl.newContext ++ [loadingMessage] ∧
      (sendStart s0 now).1.currentConversationId = some fl.convId ∧
      storedMessages (sendComplete (sendStart s0 now).1 fl acc).store fl.convId
        = some ((sendComplete (sendStart s0 now).1 fl acc).chatContext) ∧
      storedMessages (sendError (sendStart s0 now).1 fl emsg).store fl.convId
        = some ((sendError (sendStart s0 now).1 fl emsg).chatContext) := by
  intro fl hfl
  cases hcur : s0.currentConversationId with
  | none =>
    simp only [sendStart, hcur, htext, ite_false] at hfl ⊢
    obtain rfl := Option.some_inj.mp hfl
    refine ⟨?_, rfl, rfl, ?_, ?_⟩
    · simp [storedMessages, saveConversations, newConversation]
    · simp only [sendComplete, storedMessages, saveConversations, ite_true]
      rw [find?_map_update]
      simp [newConversation]
    · simp only [sendError, storedMessages, saveConversations, ite_true]
      rw [find?_map_update]
      simp [newConversation]
  | some i =>
    simp only [sendStart, hcur, htext, ite_false] at hfl ⊢
    obtain rfl := Option.some_inj.mp hfl
    obtain ⟨c₀, hc₀, hc₀id⟩ := find?_of_mem_id s0.conversations i (hactive i hcur)
    refine ⟨?_, rfl, rfl, ?_, ?_⟩
    · simp only [storedMessages, saveConversations, ite_true]
      rw [find?_map_update, hc₀]
      simp [hc₀id]
    · simp only [sendComplete, storedMessages, saveConversations, ite_true]
      rw [find?_map_update, find?_map_update, hc₀]
      simp [hc₀id]
    · simp only [sendError, storedMessages, saveConversations, ite_true]
      rw [find?_map_update, find?_map_update, hc₀]
      simp [hc₀id]

/-- Witness for the amended C2 at the new-session input. -/
theorem claim_C2_persistence_points_witness :
    (¬ trimString "hi" = "") ∧
    (sendStart (⟨[], none, [], "hi", ⟨some (StoredCurrent.arr []), none⟩⟩ : AppState) 5).2
      = some ⟨[userMessage "hi"], natToString 5, [newConversation "hi" [userMessage "hi"] 5]⟩ ∧
    storedMessages
        (sendStart (⟨[], none, [], "hi",
          ⟨some (StoredCurrent.arr []), none⟩⟩ : AppState) 5).1.store
        (SendFlow.convId ⟨[userMessage "hi"], natToString 5,
          [newConversation "hi" [userMessage "hi"] 5]⟩)
      = some (SendFlow.newContext ⟨[userMessage "hi"], natToString 5,
          [newConversation "hi" [userMessage "hi"] 5]⟩) :=
  ⟨by decide, by decide,
   (claim_C2_persistence_points ⟨[], none, [], "hi", ⟨some (StoredCurrent.arr []), none⟩⟩ 5
      "a" "e" (by decide) (fun i hi => nomatch hi)
      ⟨[userMessage "hi"], natToString 5, [newConversation "hi" [userMessage "hi"] 5]⟩
      (by decide)).1⟩

/-! ## Claim C1: staleness of the Send flow's completion -/

/-- C1: evaluation of the code at the failing scenario.  An empty session
sends "hi" at time 1000, creating and persisting conversation "1000"; the
user deletes that conversation while the stream is in flight (the persisted
list becomes empty and the active id null); when the stream completes, the
stale flow's final save maps its captured snapshot and re-inserts the
deleted conversation into the stored list — there is no staleness check. -/
theorem claim_C1_stale_save_resurrects_deleted :
    (sendStart ⟨[], none, [], "hi", ⟨some (StoredCurrent.arr []), none⟩⟩ 1000).2
      = some ⟨[userMessage "hi"], natToString 1000,
          [newConversation "hi" [userMessage "hi"] 1000]⟩ ∧
    (handleDeleteConversation
        (sendStart ⟨[], none, [], "hi", ⟨some (StoredCurrent.arr []), none⟩⟩ 1000).1
        (natToString 1000)).store.current = some (StoredCurrent.arr []) ∧
    (handleDeleteConversation
        (sendStart ⟨[], none, [], "hi", ⟨some (StoredCurrent.arr []), none⟩⟩ 1000).1
        (natToString 1000)).currentConversationId = none ∧
    (sendComplete
        (handleDeleteConversation
          (sendStart ⟨[], none, [], "hi", ⟨some (StoredCurrent.arr []), none⟩⟩ 1000).1
          (natToString 1000))
        ⟨[userMessage "hi"], natToString 1000, [newConversation "hi" [userMessage "hi"] 1000]⟩
        "ans").store.current
      = some (StoredCurrent.arr
          [{ newConversation "hi" [userMessage "hi"] 1000 with
             messages := [userMessage "hi", modelMessage "ans"] }]) := by
  exact ⟨by decide, by decide, by decide, by decide⟩

end Dockeri
